import Mathlib

/-!
Shallow embedding of `hub/core/linked_chunk_engine.py` (class `LinkedChunkEngine`)
together with the parts of its collaborators (`LinkCreds`, `CredsEncoder`,
`hub.util.link`, `hub.util.video`) that the engine's behaviour depends on.
Collaborators whose code is not part of this tree are modelled from the
specification and marked as such in their doc comments.
-/

namespace HubLinked

/-- A linked sample: a path string plus an optional credential key
(`hub/core/linked_sample.py`; the credential key may be `None` in Python). -/
structure LinkedSample where
  path : String
  creds_key : Option String
deriving DecidableEq, Repr

/-- Modelled from the spec: the credential registry `LinkCreds`
(`hub/core/link_creds.py`, not in this tree).  It interns credential keys to
compact integer ids (`creds_keys`, id = list position, `none` standing for
"no credential needed"), and tracks `used_creds_keys` (referenced by at least
one stored sample), `missing_keys` (declared but not currently supplied with a
usable secret) and `managed_creds_keys` (pre-declared by the dataset owner). -/
structure LinkCreds where
  creds_keys : List (Option String)
  used_creds_keys : List String
  missing_keys : List String
  managed_creds_keys : List String
deriving DecidableEq, Repr

/-- Modelled from the spec: `LinkCreds.get_encoding(credential_key, path)`
interns the key if unseen and returns its stable id; ids are append-only and
never reused. -/
def LinkCreds.get_encoding (lc : LinkCreds) (key : Option String)
    (_path : Option String) : LinkCreds × Nat :=
  match lc.creds_keys.indexOf? key with
  | some i => (lc, i)
  | none => ({ lc with creds_keys := lc.creds_keys ++ [key] }, lc.creds_keys.length)

/-- Modelled from the spec: `LinkCreds.get_creds_key(id)` is the reverse lookup
of `get_encoding`, failing on an unknown id. -/
def LinkCreds.get_creds_key (lc : LinkCreds) (id : Nat) : Option (Option String) :=
  lc.creds_keys.get? id

/-- Modelled from the spec: `LinkCreds.add_to_used_creds(creds_key)` marks a
credential key as referenced by stored data and reports whether this was the
first time it was seen as used; a `None` key denotes "no credential needed"
and is not tracked. -/
def LinkCreds.add_to_used_creds (lc : LinkCreds) (key : Option String) :
    LinkCreds × Bool :=
  match key with
  | none => (lc, false)
  | some k =>
    if k ∈ lc.used_creds_keys then (lc, false)
    else ({ lc with used_creds_keys := lc.used_creds_keys ++ [k] }, true)

/-- `LinkedChunkEngine.check_link_ready` (`linked_chunk_engine.py`, lines
218-226): computes `missing_used_keys = {key for key in missing_keys if key in
creds_used}` and raises a `ValueError` naming that set when it is non-empty;
otherwise it returns with no effect.  The raised error is modelled as
`Except.error` carrying the offending keys. -/
def check_link_ready (lc : LinkCreds) : Except (List String) Unit :=
  let missing_used_keys := lc.missing_keys.filter (fun k => k ∈ lc.used_creds_keys)
  if missing_used_keys.isEmpty then Except.ok () else Except.error missing_used_keys

/-- C1: `check_link_ready` fails if and only if the intersection of the used
credential keys and the keys without a currently loaded secret is non-empty;
when it fails the error names exactly that intersection, and when the
intersection is empty it returns without any effect. -/
theorem check_link_ready_iff (lc : LinkCreds) :
    ((∃ err, check_link_ready lc = Except.error err) ↔
      ∃ k, k ∈ lc.used_creds_keys ∧ k ∈ lc.missing_keys) ∧
    (∀ err, check_link_ready lc = Except.error err →
      ∀ k, k ∈ err ↔ (k ∈ lc.used_creds_keys ∧ k ∈ lc.missing_keys)) ∧
    ((∀ k, ¬(k ∈ lc.used_creds_keys ∧ k ∈ lc.missing_keys)) →
      check_link_ready lc = Except.ok ()) := by
  unfold check_link_ready
  by_cases h : (lc.missing_keys.filter (fun k => k ∈ lc.used_creds_keys)).isEmpty
  · simp only [h, if_pos]
    refine ⟨?_, ?_, ?_⟩
    · constructor
      · rintro ⟨err, herr⟩; cases herr
      · rintro ⟨k, hk, hm⟩
        exfalso
        rw [List.isEmpty_iff_eq_nil, List.filter_eq_nil] at h
        exact absurd (by simpa using hk) (by simpa using h k hm)
    · intro err herr; cases herr
    · intro _; trivial
  · simp only [h, if_neg, Bool.false_eq_true, not_false_iff]
    rw [List.isEmpty_iff_eq_nil] at h
    refine ⟨?_, ?_, ?_⟩
    · constructor
      · rintro ⟨err, herr⟩
        obtain ⟨k, hk⟩ := List.exists_mem_of_ne_nil _ h
        rw [List.mem_filter] at hk
        exact ⟨k, by simpa using hk.2, hk.1⟩
      · intro _; exact ⟨_, rfl⟩
    · intro err herr k
      have : err = lc.missing_keys.filter (fun k => k ∈ lc.used_creds_keys) := by
        cases herr; rfl
      subst this
      rw [List.mem_filter]
      constructor
      · rintro ⟨hm, hu⟩; exact ⟨by simpa using hu, hm⟩
      · rintro ⟨hu, hm⟩; exact ⟨hm, by simpa using hu⟩
    · intro hnone
      exfalso
      obtain ⟨k, hk⟩ := List.exists_mem_of_ne_nil _ h
      rw [List.mem_filter] at hk
      exact hnone k ⟨by simpa using hk.2, hk.1⟩

/-- Concrete instantiation of `check_link_ready_iff`: a registry with an empty
used ∩ missing intersection passes the readiness gate. -/
theorem check_link_ready_iff_witness :
    check_link_ready ⟨[none, some "a"], ["a"], ["b"], ["a"]⟩ = Except.ok () :=
  (check_link_ready_iff ⟨[none, some "a"], ["a"], ["b"], ["a"]⟩).2.2
    (by intro k hk; simp only [List.mem_singleton] at hk; rw [hk.1] at hk; exact absurd hk.2 (by decide))

/-! ### CredsEncoder: a run-length index of credential ids -/

/-- Modelled from the spec: appending `count` copies of `value` to a run-length
index merges into the last run if the values match, else adds a new run. -/
def rlAppend : List (Nat × Nat) → Nat → Nat → List (Nat × Nat)
  | [], v, c => [(v, c)]
  | [(lv, lc)], v, c => if lv = v then [(lv, lc + c)] else [(lv, lc), (v, c)]
  | p :: q :: rest, v, c => p :: rlAppend (q :: rest) v c

/-- Modelled from the spec: run-length lookup by sample index
(prefix-sum search), failing out of range. -/
def rlLookup : List (Nat × Nat) → Nat → Option Nat
  | [], _ => none
  | (v, c) :: rest, i => if i < c then some v else rlLookup rest (i - c)

/-- Total domain size of a run-length index: the sum of the run lengths. -/
def rlTotal (runs : List (Nat × Nat)) : Nat := (runs.map Prod.snd).sum

/-- Modelled from the spec: `CredsEncoder` (`hub/core/meta/encode/creds.py`,
not in this tree), a run-length index mapping sample index to credential id. -/
structure CredsEncoder where
  runs : List (Nat × Nat)
deriving DecidableEq, Repr

/-- Modelled from the spec: `CredsEncoder.register_samples((id,), count)`
extends the domain by `count` samples all mapped to `id`. -/
def CredsEncoder.register_samples (e : CredsEncoder) (v : Nat) (c : Nat) : CredsEncoder :=
  ⟨rlAppend e.runs v c⟩

/-- Modelled from the spec: `CredsEncoder.get_encoded_creds_key(i)`: run-length
lookup of the credential id for sample `i`. -/
def CredsEncoder.get_encoded_creds_key (e : CredsEncoder) (i : Nat) : Option Nat :=
  rlLookup e.runs i

/-- Appending `c` samples to a run-length index grows its domain by `c`. -/
theorem rlTotal_rlAppend (runs : List (Nat × Nat)) (v c : Nat) :
    rlTotal (rlAppend runs v c) = rlTotal runs + c := by
  induction runs with
  | nil => simp [rlAppend, rlTotal]
  | cons p rest ih =>
    cases rest with
    | nil =>
      obtain ⟨lv, lc⟩ := p
      by_cases h : lv = v <;> simp [rlAppend, rlTotal, h] <;> omega
    | cons q rest' =>
      simp only [rlAppend, rlTotal, List.map_cons, List.sum_cons] at ih ⊢
      omega

/-! ### The linked chunk engine and numpy-shape model -/

/-- A numpy array, modelled at the level of its shape (the claims settled here
only constrain dimensionality and extent, never element values). -/
structure NpArray where
  shape : List Nat
deriving DecidableEq, Repr

/-- One axis of a hub `Index` (`hub/core/index/index.py`): either a single
integer or a slice with optional start/stop/step. -/
inductive IndexEntry where
  | int (n : Int)
  | slice (start stop step : Option Int)
deriving DecidableEq, Repr

/-- A hub `Index`: an ordered list of per-axis entries, the first entry
addressing the sample axis. -/
structure Index where
  values : List IndexEntry
deriving DecidableEq, Repr

/-- Length of the selection `[start:stop:step]` on an axis of extent `len`,
following Python slice semantics (step defaults to 1; negative bounds wrap). -/
def sliceLen (len : Nat) (start stop step : Option Int) : Nat :=
  let s := step.getD 1
  if s > 0 then
    let lo := match start with
      | none => 0
      | some a => if a < 0 then max ((len : Int) + a) 0 else min a (len : Int)
    let hi := match stop with
      | none => (len : Int)
      | some b => if b < 0 then max ((len : Int) + b) 0 else min b (len : Int)
    if hi > lo then ((hi - lo + s - 1) / s).toNat else 0
  else if s < 0 then
    let lo := match start with
      | none => (len : Int) - 1
      | some a => if a < 0 then max ((len : Int) + a) (-1) else min a ((len : Int) - 1)
    let hi := match stop with
      | none => -1
      | some b => if b < 0 then max ((len : Int) + b) (-1) else min b ((len : Int) - 1)
    if lo > hi then ((lo - hi + (-s) - 1) / (-s)).toNat else 0
  else 0

/-- Shape of `arr[tuple(entries)]` in numpy terms: each integer entry consumes
its axis, each slice entry keeps the axis with the sliced extent. -/
def npIndexShape : List Nat → List IndexEntry → List Nat
  | shape, [] => shape
  | [], _ => []
  | _ :: rest, (IndexEntry.int _) :: es => npIndexShape rest es
  | d :: rest, (IndexEntry.slice a b s) :: es => sliceLen d a b s :: npIndexShape rest es

/-- The environment of external effects a `LinkedChunkEngine` read goes
through.  Modelled from the spec: `read_linked_sample` resolves a path and
credential key into an array; `get_storage_provider` lazily builds an
authenticated client, failing when the key's secret is not loaded
(`secret_loaded`); `get_presigned_url` yields a time-limited authenticated URL
from that client (`presigned`). -/
structure LinkEnv where
  resolve : String → Option String → NpArray
  secret_loaded : Option String → String → Bool
  presigned : Option String → String → String → String

/-- The state of a `LinkedChunkEngine` that its per-sample read paths depend
on: the inline bytes stored for each sample are just its path string
(`paths`, indexed by global sample index), plus the credential encoder and the
credential registry. -/
structure LinkedChunkEngine where
  paths : List String
  creds_encoder : CredsEncoder
  link_creds : LinkCreds
deriving Repr

/-- `LinkedChunkEngine.get_path(global_sample_index)` (lines 121-124): reads
the inline stored bytes for the sample, which are its path string. -/
def LinkedChunkEngine.get_path (e : LinkedChunkEngine) (i : Nat) : String :=
  e.paths.getD i ""

/-- `LinkedChunkEngine.is_data_cachable` (lines 71-73): constantly `False`. -/
def LinkedChunkEngine.is_data_cachable (_e : LinkedChunkEngine) : Bool :=
  false

/-- C9: `is_data_cachable` is `false` for every engine instance and state. -/
theorem is_data_cachable_always_false (e : LinkedChunkEngine) :
    e.is_data_cachable = false :=
  rfl

/-- Python `s.startswith(pre)`: prefix test on the character sequence. -/
def strStartsWith (s pre : String) : Bool :=
  List.isPrefixOf pre.toList s.toList

/-- `sample_path.startswith(("gcs://", "gcp://", "s3://"))` from
`get_video_url` (line 88). -/
def is_object_storage_path (p : String) : Bool :=
  strStartsWith p "gcs://" || strStartsWith p "gcp://" || strStartsWith p "s3://"

/-- `provider_type = "s3" if sample_path.startswith("s3://") else "gcs"` from
`get_video_url` (line 89). -/
def provider_type_of (p : String) : String :=
  if strStartsWith p "s3://" then "s3" else "gcs"

/-- `LinkedChunkEngine.get_video_url(global_sample_index)` (lines 82-96):
resolves the sample's path and credential key; for an object-storage path it
asks the credentialed storage client for a presigned URL, otherwise it returns
the stored path itself.  Failures of the credential-id lookups and of client
construction are modelled as `Except.error`. -/
def LinkedChunkEngine.get_video_url (env : LinkEnv) (e : LinkedChunkEngine) (i : Nat) :
    Except String String :=
  let sample_path := e.get_path i
  match e.creds_encoder.get_encoded_creds_key i with
  | none => Except.error "creds id out of range"
  | some sample_creds_encoded =>
    match e.link_creds.get_creds_key sample_creds_encoded with
    | none => Except.error "unknown creds id"
    | some sample_creds_key =>
      if is_object_storage_path sample_path then
        let provider_type := provider_type_of sample_path
        if env.secret_loaded sample_creds_key provider_type then
          Except.ok (env.presigned sample_creds_key provider_type sample_path)
        else Except.error "credential error: secret not loaded"
      else Except.ok sample_path

/-- C5: for a valid sample whose credential secret is loaded, `get_video_url`
returns the presigned URL from the client resolved for that sample's credential
key exactly when the stored path has an object-storage scheme, and returns the
stored path unchanged for every other path. -/
theorem get_video_url_scheme_dispatch (env : LinkEnv) (e : LinkedChunkEngine)
    (i : Nat) (encId : Nat) (k : Option String)
    (hid : e.creds_encoder.get_encoded_creds_key i = some encId)
    (hk : e.link_creds.get_creds_key encId = some k)
    (hload : env.secret_loaded k (provider_type_of (e.get_path i)) = true) :
    (is_object_storage_path (e.get_path i) = true →
      LinkedChunkEngine.get_video_url env e i =
        Except.ok (env.presigned k (provider_type_of (e.get_path i)) (e.get_path i))) ∧
    (is_object_storage_path (e.get_path i) = false →
      LinkedChunkEngine.get_video_url env e i = Except.ok (e.get_path i)) := by
  constructor
  · intro hobj
    unfold LinkedChunkEngine.get_video_url
    simp only [hid, hk, hobj, hload, if_true]
  · intro hobj
    unfold LinkedChunkEngine.get_video_url
    simp only [hid, hk, hobj, Bool.false_eq_true, if_false]

/-- Concrete instantiation of `get_video_url_scheme_dispatch`: an `s3://` path
is presigned, a local path is returned unchanged. -/
theorem get_video_url_scheme_dispatch_witness :
    LinkedChunkEngine.get_video_url
        ⟨fun _ _ => ⟨[]⟩, fun _ _ => true, fun _ _ p => "signed:" ++ p⟩
        ⟨["s3://bucket/vid.mp4"], ⟨[(0, 1)]⟩, ⟨[some "k"], [], [], []⟩⟩ 0 =
      Except.ok "signed:s3://bucket/vid.mp4" ∧
    LinkedChunkEngine.get_video_url
        ⟨fun _ _ => ⟨[]⟩, fun _ _ => true, fun _ _ p => "signed:" ++ p⟩
        ⟨["/local/vid.mp4"], ⟨[(0, 1)]⟩, ⟨[some "k"], [], [], []⟩⟩ 0 =
      Except.ok "/local/vid.mp4" := by
  constructor
  · exact (get_video_url_scheme_dispatch
      ⟨fun _ _ => ⟨[]⟩, fun _ _ => true, fun _ _ p => "signed:" ++ p⟩
      ⟨["s3://bucket/vid.mp4"], ⟨[(0, 1)]⟩, ⟨[some "k"], [], [], []⟩⟩ 0 0 (some "k")
      (by decide) (by decide) (by decide)).1 (by decide)
  · exact (get_video_url_scheme_dispatch
      ⟨fun _ _ => ⟨[]⟩, fun _ _ => true, fun _ _ p => "signed:" ++ p⟩
      ⟨["/local/vid.mp4"], ⟨[(0, 1)]⟩, ⟨[some "k"], [], [], []⟩⟩ 0 0 (some "k")
      (by decide) (by decide) (by decide)).2 (by decide)

/-- `LinkedChunkEngine.get_hub_read_sample(global_sample_index)` (lines
126-133): returns `None` for an empty stored path, otherwise resolves the
credential key and reads the linked sample.  Credential-id lookup failures are
modelled as `Except.error`. -/
def LinkedChunkEngine.get_hub_read_sample (env : LinkEnv) (e : LinkedChunkEngine)
    (i : Nat) : Except String (Option NpArray) :=
  let sample_path := e.get_path i
  if sample_path = "" then Except.ok none
  else
    match e.creds_encoder.get_encoded_creds_key i with
    | none => Except.error "creds id out of range"
    | some sample_creds_encoded =>
      match e.link_creds.get_creds_key sample_creds_encoded with
      | none => Except.error "unknown creds id"
      | some sample_creds_key =>
        Except.ok (some (env.resolve sample_path sample_creds_key))

/-- `LinkedChunkEngine.get_basic_sample(global_sample_index, index)` (lines
115-119): `np.ones((0,))` when the read sample is `None` (empty path), else
the resolved array indexed by every `Index` entry after the first (sample)
axis. -/
def LinkedChunkEngine.get_basic_sample (env : LinkEnv) (e : LinkedChunkEngine)
    (i : Nat) (index : Index) : Except String NpArray :=
  match e.get_hub_read_sample env i with
  | Except.error m => Except.error m
  | Except.ok none => Except.ok ⟨[0]⟩
  | Except.ok (some sample) =>
    Except.ok ⟨npIndexShape sample.shape (index.values.drop 1)⟩

/-- C6: for a valid sample index with an empty stored path, `get_basic_sample`
returns the zero-length one-dimensional array (shape `[0]`) rather than
failing; for a non-empty path it resolves the referenced resource into an
array and applies all sub-index axes after the first (sample) axis. -/
theorem get_basic_sample_empty_path (env : LinkEnv) (e : LinkedChunkEngine)
    (i : Nat) (index : Index) (encId : Nat) (k : Option String)
    (hid : e.creds_encoder.get_encoded_creds_key i = some encId)
    (hk : e.link_creds.get_creds_key encId = some k) :
    (e.get_path i = "" →
      LinkedChunkEngine.get_basic_sample env e i index = Except.ok ⟨[0]⟩) ∧
    (e.get_path i ≠ "" →
      LinkedChunkEngine.get_basic_sample env e i index =
        Except.ok ⟨npIndexShape (env.resolve (e.get_path i) k).shape
          (index.values.drop 1)⟩) := by
  constructor
  · intro hempty
    unfold LinkedChunkEngine.get_basic_sample LinkedChunkEngine.get_hub_read_sample
    simp only [hempty, if_pos]
  · intro hne
    unfold LinkedChunkEngine.get_basic_sample LinkedChunkEngine.get_hub_read_sample
    simp only [hne, if_neg, hid, hk, if_false]

/-- Concrete instantiation of `get_basic_sample_empty_path`: an empty path
yields the shape-`[0]` sentinel; a non-empty path yields the resolved array
with the trailing sub-index applied. -/
theorem get_basic_sample_empty_path_witness :
    LinkedChunkEngine.get_basic_sample
        ⟨fun _ _ => ⟨[4, 5, 3]⟩, fun _ _ => true, fun _ _ p => p⟩
        ⟨[""], ⟨[(0, 1)]⟩, ⟨[some "k"], [], [], []⟩⟩ 0 ⟨[IndexEntry.int 0]⟩ =
      Except.ok ⟨[0]⟩ ∧
    LinkedChunkEngine.get_basic_sample
        ⟨fun _ _ => ⟨[4, 5, 3]⟩, fun _ _ => true, fun _ _ p => p⟩
        ⟨["/img.png"], ⟨[(0, 1)]⟩, ⟨[some "k"], [], [], []⟩⟩ 0
        ⟨[IndexEntry.int 0, IndexEntry.int 2]⟩ =
      Except.ok ⟨[5, 3]⟩ := by
  constructor
  · exact (get_basic_sample_empty_path
      ⟨fun _ _ => ⟨[4, 5, 3]⟩, fun _ _ => true, fun _ _ p => p⟩
      ⟨[""], ⟨[(0, 1)]⟩, ⟨[some "k"], [], [], []⟩⟩ 0 ⟨[IndexEntry.int 0]⟩ 0 (some "k")
      (by decide) (by decide)).1 rfl
  · exact (get_basic_sample_empty_path
      ⟨fun _ _ => ⟨[4, 5, 3]⟩, fun _ _ => true, fun _ _ p => p⟩
      ⟨["/img.png"], ⟨[(0, 1)]⟩, ⟨[some "k"], [], [], []⟩⟩ 0
      ⟨[IndexEntry.int 0, IndexEntry.int 2]⟩ 0 (some "k")
      (by decide) (by decide)).2 (by decide)

/-! ### Video reads (`get_video_sample`) -/

/-- `numpy.ndarray.squeeze(axis)`: returns a NEW array with the given axis
removed when its extent is 1 (it never mutates the receiver). -/
def npSqueeze (a : NpArray) (axis : Nat) : NpArray :=
  if a.shape.get? axis = some 1 then ⟨a.shape.eraseIdx axis⟩ else a

/-- A dynamically-typed Python argument: `get_video_sample`'s `index`
parameter may be an `int` or an `Index`. -/
inductive PyVal where
  | int (n : Int)
  | idx (ix : Index)
deriving DecidableEq, Repr

/-- Modelled from the spec: `normalize_index` (`hub/util/video.py`, not in
this tree) normalizes the frame-axis sub-index into `(start, stop, step,
reverse)` bounds, supporting negative step as reverse iteration. -/
def normalize_index (sub : Option IndexEntry) (nframes : Nat) :
    Int × Int × Int × Bool :=
  match sub with
  | none => (0, (nframes : Int), 1, false)
  | some (IndexEntry.int n) =>
    let i : Int := if n < 0 then (nframes : Int) + n else n
    (i, i + 1, 1, false)
  | some (IndexEntry.slice a b s) =>
    let stepRaw := s.getD 1
    let reverse := stepRaw < 0
    let step := if reverse then -stepRaw else stepRaw
    let lo := match a with
      | none => 0
      | some x => if x < 0 then max ((nframes : Int) + x) 0 else min x (nframes : Int)
    let hi := match b with
      | none => (nframes : Int)
      | some x => if x < 0 then max ((nframes : Int) + x) 0 else min x (nframes : Int)
    if reverse then (min lo hi, max lo hi, step, true) else (lo, hi, step, false)

/-- Number of frames in the decoded range `start, start+step, ... < stop`. -/
def frame_count (start stop step : Int) : Nat :=
  if start < stop ∧ step > 0 then ((stop - start + step - 1) / step).toNat else 0

/-- Modelled from the spec: `_read_video_shape(url)` probes the video behind a
URL for its `(nframes, height, width, channels)` shape. -/
structure VideoEnv where
  video_shape : String → List Nat

/-- `LinkedChunkEngine.get_video_sample(global_sample_index, index)` (lines
98-113).  Mirrors the source line by line: `squeeze = isinstance(index, int)`
tests the WHOLE `index` argument (an `Index` object at every call that
reaches line 102, since line 102 reads `index.values`); `_decompress_video`
decodes the normalized frame range; `video_sample.squeeze(0)` produces a new
array whose value the source drops, so the returned array is the decoded
range itself. -/
def get_video_sample (env : LinkEnv) (venv : VideoEnv) (e : LinkedChunkEngine)
    (i : Nat) (index : PyVal) : Except String NpArray :=
  match e.get_video_url env i with
  | Except.error m => Except.error m
  | Except.ok url =>
    let squeeze := match index with
      | PyVal.int _ => true
      | PyVal.idx _ => false
    let shape := venv.video_shape url
    match index with
    | PyVal.int _ => Except.error "AttributeError: int has no attribute values"
    | PyVal.idx ix =>
      let sub_index := ix.values.get? 1
      let r := normalize_index sub_index (shape.headD 0)
      let video_sample : NpArray := ⟨frame_count r.1 r.2.1 r.2.2.1 :: shape.tail⟩
      let _dropped := if squeeze then npSqueeze video_sample 0 else video_sample
      Except.ok video_sample

/-- C2 (refuting evaluation): on a 5-frame `(5,10,10,3)` video, a request
whose frame-axis selection is the single integer `2` returns an array of
shape `(1,10,10,3)` — the frame axis is NOT collapsed, although squeezing
axis 0 of that very array would give `(10,10,3)`.  The source computes
`squeeze = isinstance(index, int)` on the whole `Index` object (always false
on any call that survives line 102) and discards the result of
`video_sample.squeeze(0)`, which is not an in-place operation. -/
theorem get_video_sample_retains_frame_axis :
    get_video_sample ⟨fun _ _ => ⟨[]⟩, fun _ _ => true, fun _ _ p => p⟩
        ⟨fun _ => [5, 10, 10, 3]⟩
        ⟨["/vid.mp4"], ⟨[(0, 1)]⟩, ⟨[some "k"], [], [], []⟩⟩ 0
        (PyVal.idx ⟨[IndexEntry.int 0, IndexEntry.int 2]⟩) =
      Except.ok ⟨[1, 10, 10, 3]⟩ ∧
    npSqueeze ⟨[1, 10, 10, 3]⟩ 0 = ⟨[10, 10, 3]⟩ := by
  constructor
  · rfl
  · rfl

/-! ### `check_each_sample` (lines 139-167) -/

/-- A candidate sample handed to `check_each_sample`, as a dynamically-typed
Python value: a `LinkedSample`, a `Tensor` (with its `is_link` flag and, when
linked, the `LinkedSample` that `sample._linked_sample()` resolves to),
`None`, or a value of any other type (carrying its Python type name). -/
inductive PySample where
  | linked (s : LinkedSample)
  | tensor (is_link : Bool) (resolved : LinkedSample)
  | pynone
  | other (typeName : String)
deriving DecidableEq, Repr

/-- The Python type name rendered by `f"{type(sample)}"`. -/
def PySample.pyTypeName : PySample → String
  | PySample.linked _ => "LinkedSample"
  | PySample.tensor _ _ => "Tensor"
  | PySample.pynone => "NoneType"
  | PySample.other t => t

/-- The `TypeError` message of line 148, naming the offending type. -/
def type_error_msg (t : String) : String :=
  "Expected LinkedSample, got " ++ t ++ " instead. Use hub.link() to link samples."

/-- Lines 142-149: the per-sample dispatch.  A linked `Tensor` is replaced by
its `_linked_sample()` (also written back into the input list, second
component); a `LinkedSample` or `None` passes through; anything else raises
`TypeError` naming the type. -/
def sample_dispatch : PySample → Except String (Option LinkedSample × PySample)
  | PySample.tensor true r => Except.ok (some r, PySample.linked r)
  | PySample.tensor false r => Except.error (type_error_msg (PySample.tensor false r).pyTypeName)
  | PySample.linked s => Except.ok (some s, PySample.linked s)
  | PySample.pynone => Except.ok (none, PySample.pynone)
  | PySample.other t => Except.error (type_error_msg (PySample.other t).pyTypeName)

/-- Modelled from the spec: `get_path_creds_key(sample)` (`hub/util/link.py`,
not in this tree) resolves a candidate to its `(path, credential_key)` pair,
`(None, None)` for a `None` sample. -/
def get_path_creds_key : Option LinkedSample → Option String × Option String
  | none => (none, none)
  | some s => (some s.path, s.creds_key)

/-- The value appended to `verified_samples` for one candidate: the candidate
itself when it is `None` or has an empty path, otherwise the result of
`read_linked_sample(path, creds_key, link_creds, verify)` (modelled
symbolically by its arguments). -/
inductive VerifiedSample where
  | raw (s : Option LinkedSample)
  | resolved (path : String) (creds_key : Option String) (verify : Bool)
deriving DecidableEq, Repr

/-- Lines 156-166: the value appended for the (already dispatched) candidate
`so`: `so` itself when `None` or empty-path, else the `read_linked_sample`
call. -/
def verified_from (verify : Bool) : Option LinkedSample → VerifiedSample
  | none => VerifiedSample.raw none
  | some ls =>
    if ls.path = "" then VerifiedSample.raw (some ls)
    else VerifiedSample.resolved ls.path ls.creds_key verify

/-- `LinkedChunkEngine.check_each_sample(samples)` (lines 139-167), with the
`LinkCreds` state threaded explicitly and the in-place mutation of the input
list returned as the second component.  On a raised `TypeError` the elements
from the offending one on are returned unprocessed, as in the source. -/
def check_each_sample (verify : Bool) :
    List PySample → LinkCreds →
      Except String (List VerifiedSample) × List PySample × LinkCreds
  | [], lc => (Except.ok [], [], lc)
  | s :: rest, lc =>
    match sample_dispatch s with
    | Except.error m => (Except.error m, s :: rest, lc)
    | Except.ok (so, repl) =>
      let pk := get_path_creds_key so
      let lc1 := (lc.get_encoding pk.2 pk.1).1
      let v : VerifiedSample := verified_from verify so
      match check_each_sample verify rest lc1 with
      | (Except.error m, outs, lc2) => (Except.error m, repl :: outs, lc2)
      | (Except.ok vs, outs, lc2) => (Except.ok (v :: vs), repl :: outs, lc2)

/-- The variants `check_each_sample` accepts: `LinkedSample`, a linked
`Tensor`, and `None`. -/
def accepted : PySample → Bool
  | PySample.linked _ => true
  | PySample.tensor is_link _ => is_link
  | PySample.pynone => true
  | PySample.other _ => false

/-- The verified sample produced for one accepted candidate. -/
def verified_of (verify : Bool) : PySample → VerifiedSample
  | PySample.linked s =>
    if s.path = "" then VerifiedSample.raw (some s)
    else VerifiedSample.resolved s.path s.creds_key verify
  | PySample.tensor _ r =>
    if r.path = "" then VerifiedSample.raw (some r)
    else VerifiedSample.resolved r.path r.creds_key verify
  | PySample.pynone => VerifiedSample.raw none
  | PySample.other _ => VerifiedSample.raw none

/-- What the in-place write of line 145 leaves at one slot of the input list:
a linked `Tensor` is overwritten by its resolved `LinkedSample`, every other
element is untouched. -/
def replaced_of : PySample → PySample
  | PySample.tensor true r => PySample.linked r
  | s => s

theorem sample_dispatch_error_iff (s : PySample) :
    ∀ m, sample_dispatch s = Except.error m ↔
      (accepted s = false ∧ m = type_error_msg s.pyTypeName) := by
  intro m
  cases s with
  | linked ls => simp [sample_dispatch, accepted]
  | tensor il r =>
    cases il <;> simp [sample_dispatch, accepted, PySample.pyTypeName, eq_comm]
  | pynone => simp [sample_dispatch, accepted]
  | other t => simp [sample_dispatch, accepted, PySample.pyTypeName, eq_comm]

theorem sample_dispatch_ok (verify : Bool) (s : PySample) (so : Option LinkedSample)
    (repl : PySample) (h : sample_dispatch s = Except.ok (so, repl)) :
    accepted s = true ∧ repl = replaced_of s ∧
      verified_from verify so = verified_of verify s := by
  cases s with
  | linked ls =>
    simp only [sample_dispatch, Except.ok.injEq, Prod.mk.injEq] at h
    obtain ⟨h1, h2⟩ := h
    subst h1; subst h2
    exact ⟨rfl, rfl, rfl⟩
  | tensor il r =>
    cases il with
    | true =>
      simp only [sample_dispatch, Except.ok.injEq, Prod.mk.injEq] at h
      obtain ⟨h1, h2⟩ := h
      subst h1; subst h2
      exact ⟨rfl, rfl, rfl⟩
    | false => simp [sample_dispatch] at h
  | pynone =>
    simp only [sample_dispatch, Except.ok.injEq, Prod.mk.injEq] at h
    obtain ⟨h1, h2⟩ := h
    subst h1; subst h2
    exact ⟨rfl, rfl, rfl⟩
  | other t => simp [sample_dispatch] at h

/-- C3: `check_each_sample` succeeds exactly when every candidate is a
`LinkedSample`, a linked-tensor reference, or `None`; any other candidate
raises a `TypeError` naming the unexpected type; and on success the verified
samples come back in the same order as the input (elementwise image of the
input list). -/
theorem check_each_sample_accepts (verify : Bool) (samples : List PySample)
    (lc : LinkCreds) :
    ((∃ vs, (check_each_sample verify samples lc).1 = Except.ok vs) ↔
      samples.all accepted = true) ∧
    (∀ m, (check_each_sample verify samples lc).1 = Except.error m →
      ∃ s ∈ samples, accepted s = false ∧ m = type_error_msg s.pyTypeName) ∧
    (∀ vs, (check_each_sample verify samples lc).1 = Except.ok vs →
      vs = samples.map (verified_of verify)) := by
  induction samples generalizing lc with
  | nil => simp [check_each_sample]
  | cons s rest ih =>
    cases hd : sample_dispatch s with
    | error m =>
      obtain ⟨ha, hm⟩ := (sample_dispatch_error_iff s m).mp hd
      refine ⟨?_, ?_, ?_⟩
      · constructor
        · rintro ⟨vs, hvs⟩
          simp only [check_each_sample, hd] at hvs
          exact Except.noConfusion hvs
        · intro hall
          simp only [List.all_cons, Bool.and_eq_true] at hall
          rw [ha] at hall
          exact absurd hall.1 (by decide)
      · intro m' hm'
        simp only [check_each_sample, hd, Except.error.injEq] at hm'
        exact ⟨s, List.mem_cons_self s rest, ha, by rw [← hm', hm]⟩
      · intro vs hvs
        simp only [check_each_sample, hd] at hvs
        exact Except.noConfusion hvs
    | ok p =>
      obtain ⟨so, repl⟩ := p
      obtain ⟨ha, hrepl, hv⟩ := sample_dispatch_ok verify s so repl hd
      rcases hr : check_each_sample verify rest
          ((lc.get_encoding (get_path_creds_key so).2 (get_path_creds_key so).1).1)
        with ⟨r1, outs1, lc2⟩
      have ihr := ih ((lc.get_encoding (get_path_creds_key so).2 (get_path_creds_key so).1).1)
      rw [hr] at ihr
      cases r1 with
      | error m =>
        refine ⟨?_, ?_, ?_⟩
        · constructor
          · rintro ⟨vs, hvs⟩
            simp only [check_each_sample, hd, hr] at hvs
            exact Except.noConfusion hvs
          · intro hall
            simp only [List.all_cons, Bool.and_eq_true] at hall
            obtain ⟨vs, hvs⟩ := ihr.1.mpr hall.2
            exact Except.noConfusion hvs
        · intro m' hm'
          simp only [check_each_sample, hd, hr] at hm'
          obtain ⟨s', hs', has', hm''⟩ := ihr.2.1 m' (by rw [hm'])
          exact ⟨s', List.mem_cons_of_mem s hs', has', hm''⟩
        · intro vs hvs
          simp only [check_each_sample, hd, hr] at hvs
          exact Except.noConfusion hvs
      | ok vs1 =>
        refine ⟨?_, ?_, ?_⟩
        · constructor
          · rintro ⟨vs, hvs⟩
            simp only [List.all_cons, Bool.and_eq_true, ha, true_and]
            exact ihr.1.mp ⟨vs1, rfl⟩
          · intro _
            simp only [check_each_sample, hd, hr]
            exact ⟨_, rfl⟩
        · intro m' hm'
          simp only [check_each_sample, hd, hr] at hm'
          exact Except.noConfusion hm'
        · intro vs hvs
          simp only [check_each_sample, hd, hr, Except.ok.injEq] at hvs
          have hrest := ihr.2.2 vs1 rfl
          rw [← hvs, List.map_cons, hv, hrest]

/-- Concrete instantiation of `check_each_sample_accepts`: a raw `int` among
the candidates is rejected with a `TypeError` naming `int`. -/
theorem check_each_sample_accepts_witness :
    ∃ s ∈ [PySample.linked ⟨"s3://x", some "k"⟩, PySample.other "int"],
      accepted s = false ∧
        type_error_msg "int" = type_error_msg s.pyTypeName :=
  (check_each_sample_accepts false
      [PySample.linked ⟨"s3://x", some "k"⟩, PySample.other "int"]
      ⟨[], [], [], []⟩).2.1 (type_error_msg "int") rfl

/-- C10: `check_each_sample` writes back into the caller's list: on a
successful run every slot holding a linked-tensor reference is overwritten
with its resolved `LinkedSample`, and every other slot is left unchanged. -/
theorem check_each_sample_in_place (verify : Bool) (samples : List PySample)
    (lc : LinkCreds) :
    (∀ vs, (check_each_sample verify samples lc).1 = Except.ok vs →
      (check_each_sample verify samples lc).2.1 = samples.map replaced_of) ∧
    (∀ r, replaced_of (PySample.tensor true r) = PySample.linked r) ∧
    (∀ s : PySample, (∀ r, s ≠ PySample.tensor true r) → replaced_of s = s) := by
  refine ⟨?_, fun r => rfl, ?_⟩
  · induction samples generalizing lc with
    | nil => intro vs _; rfl
    | cons s rest ih =>
      intro vs hvs
      cases hd : sample_dispatch s with
      | error m =>
        simp only [check_each_sample, hd] at hvs
        exact Except.noConfusion hvs
      | ok p =>
        obtain ⟨so, repl⟩ := p
        obtain ⟨ha, hrepl, hv⟩ := sample_dispatch_ok verify s so repl hd
        rcases hr : check_each_sample verify rest
            ((lc.get_encoding (get_path_creds_key so).2 (get_path_creds_key so).1).1)
          with ⟨r1, outs1, lc2⟩
        cases r1 with
        | error m =>
          simp only [check_each_sample, hd, hr] at hvs
          exact Except.noConfusion hvs
        | ok vs1 =>
          have ihr := ih ((lc.get_encoding (get_path_creds_key so).2
            (get_path_creds_key so).1).1) vs1
          rw [hr] at ihr
          simp only [check_each_sample, hd, hr, List.map_cons]
          exact congrArg₂ (· :: ·) hrepl (ihr rfl)
  · intro s hs
    cases s with
    | linked ls => rfl
    | tensor il r =>
      cases il with
      | true => exact absurd rfl (hs r)
      | false => rfl
    | pynone => rfl
    | other t => rfl

/-- Concrete instantiation of `check_each_sample_in_place`: a linked-tensor
reference slot is overwritten with its resolved `LinkedSample`, the `None`
slot is untouched. -/
theorem check_each_sample_in_place_witness :
    (check_each_sample false
        [PySample.tensor true ⟨"s3://x", some "k"⟩, PySample.pynone]
        ⟨[], [], [], []⟩).2.1 =
      [PySample.linked ⟨"s3://x", some "k"⟩, PySample.pynone] :=
  (check_each_sample_in_place false
      [PySample.tensor true ⟨"s3://x", some "k"⟩, PySample.pynone]
      ⟨[], [], [], []⟩).1
    [VerifiedSample.resolved "s3://x" (some "k") false, VerifiedSample.raw none]
    rfl

/-! ### `register_new_creds` (lines 169-180) -/

/-- The observable side effects of `register_new_creds` beyond its state
updates: persisting the credential registry (`save_link_creds`) and the
advisory unmanaged-credential notice (`warn_missing_managed_creds`). -/
inductive CredEvent where
  | save_link_creds
  | warn_missing_managed_creds
deriving DecidableEq, Repr

/-- The loop body of `register_new_creds` over the processed samples, with
the `LinkCreds`/`CredsEncoder` state threaded and the events fired for each
sample collected per step (lines 173-180): encode the credential key, grow
the run-length encoder by one sample, and — when `add_to_used_creds` reports
a first use — save the registry and emit the warning. -/
def register_new_creds_loop :
    List (Option LinkedSample) → LinkCreds → CredsEncoder →
      LinkCreds × CredsEncoder × List (List CredEvent)
  | [], lc, enc => (lc, enc, [])
  | s :: rest, lc, enc =>
    let pk := get_path_creds_key s
    let r1 := lc.get_encoding pk.2 pk.1
    let enc1 := enc.register_samples r1.2 1
    let r2 := LinkCreds.add_to_used_creds r1.1 pk.2
    let evs := if r2.2 then
        [CredEvent.save_link_creds, CredEvent.warn_missing_managed_creds]
      else []
    let r3 := register_new_creds_loop rest r2.1 enc1
    (r3.1, r3.2.1, evs :: r3.2.2)

/-- `LinkedChunkEngine.register_new_creds(num_samples_added, samples)` (lines
169-180): processes `samples[i]` for `i in range(num_samples_added)`;
indexing past the end of `samples` is a Python `IndexError`, modelled as
`none`. -/
def register_new_creds (num : Nat) (samples : List (Option LinkedSample))
    (lc : LinkCreds) (enc : CredsEncoder) :
    Option (LinkCreds × CredsEncoder × List (List CredEvent)) :=
  if num ≤ samples.length then some (register_new_creds_loop (samples.take num) lc enc)
  else none

/-- The events one sample contributes: none when its key is already used (or
it carries no key), the save + warn pair exactly on a first use. -/
def step_events (used : List String) (key : Option String) : List CredEvent :=
  match key with
  | none => []
  | some k =>
    if k ∈ used then []
    else [CredEvent.save_link_creds, CredEvent.warn_missing_managed_creds]

/-- The event trace `register_new_creds` should produce given the initially
used keys: per processed sample, `step_events` of its credential key against
the keys used so far. -/
def expected_events (used : List String) :
    List (Option LinkedSample) → List (List CredEvent)
  | [] => []
  | s :: rest =>
    let key := s.bind (fun ls => ls.creds_key)
    step_events used key ::
      expected_events
        (match key with
         | some k => if k ∈ used then used else used ++ [k]
         | none => used) rest

theorem expected_events_cons (used : List String) (s : Option LinkedSample)
    (rest : List (Option LinkedSample)) :
    expected_events used (s :: rest) =
      step_events used (s.bind fun ls => ls.creds_key) ::
        expected_events
          (match s.bind fun ls => ls.creds_key with
           | some k => if k ∈ used then used else used ++ [k]
           | none => used) rest := rfl

theorem get_encoding_preserves_used (lc : LinkCreds) (key path : Option String) :
    ((lc.get_encoding key path).1).used_creds_keys = lc.used_creds_keys := by
  unfold LinkCreds.get_encoding
  cases lc.creds_keys.indexOf? key <;> rfl

theorem add_to_used_creds_spec (lc : LinkCreds) (key : Option String) :
    ((lc.add_to_used_creds key).2 = true ↔
      ∃ k, key = some k ∧ k ∉ lc.used_creds_keys) ∧
    ((lc.add_to_used_creds key).1).used_creds_keys =
      (match key with
       | some k =>
         if k ∈ lc.used_creds_keys then lc.used_creds_keys
         else lc.used_creds_keys ++ [k]
       | none => lc.used_creds_keys) := by
  cases key with
  | none => simp [LinkCreds.add_to_used_creds]
  | some k =>
    by_cases hmem : k ∈ lc.used_creds_keys <;>
      simp [LinkCreds.add_to_used_creds, hmem]

theorem register_new_creds_loop_spec (ss : List (Option LinkedSample))
    (lc : LinkCreds) (enc : CredsEncoder) :
    (register_new_creds_loop ss lc enc).2.2 =
      expected_events lc.used_creds_keys ss ∧
    rlTotal ((register_new_creds_loop ss lc enc).2.1).runs =
      rlTotal enc.runs + ss.length := by
  induction ss generalizing lc enc with
  | nil => exact ⟨rfl, by simp [register_new_creds_loop]⟩
  | cons s rest ih =>
    have hkey : (get_path_creds_key s).2 = s.bind (fun ls => ls.creds_key) := by
      cases s <;> rfl
    have hlc1used := get_encoding_preserves_used lc (get_path_creds_key s).2
      (get_path_creds_key s).1
    have hadd := add_to_used_creds_spec (lc.get_encoding (get_path_creds_key s).2
      (get_path_creds_key s).1).1 (get_path_creds_key s).2
    have ihr := ih ((lc.get_encoding (get_path_creds_key s).2
        (get_path_creds_key s).1).1.add_to_used_creds (get_path_creds_key s).2).1
      (enc.register_samples
        ((lc.get_encoding (get_path_creds_key s).2 (get_path_creds_key s).1).2) 1)
    constructor
    · show (if ((lc.get_encoding (get_path_creds_key s).2
            (get_path_creds_key s).1).1.add_to_used_creds (get_path_creds_key s).2).2 then
          [CredEvent.save_link_creds, CredEvent.warn_missing_managed_creds]
        else []) ::
          (register_new_creds_loop rest _ _).2.2 =
        expected_events lc.used_creds_keys (s :: rest)
      rw [ihr.1, expected_events_cons, ← hkey]
      refine congrArg₂ (· :: ·) ?_ ?_
      · cases hk : (get_path_creds_key s).2 with
        | none =>
          have : ((lc.get_encoding none (get_path_creds_key s).1).1.add_to_used_creds
              none).2 = false := by
            simp [LinkCreds.add_to_used_creds]
          simp [this, step_events]
        | some k =>
          rw [hk] at hadd hlc1used
          by_cases hmem : k ∈ lc.used_creds_keys
          · have hb : ((lc.get_encoding (some k) (get_path_creds_key s).1).1.add_to_used_creds
                (some k)).2 = false := by
              rcases hb2 : ((lc.get_encoding (some k)
                  (get_path_creds_key s).1).1.add_to_used_creds (some k)).2 with _ | _
              · rfl
              · obtain ⟨k', hk', hnk'⟩ := hadd.1.mp hb2
                cases hk'
                rw [hlc1used] at hnk'
                exact absurd hmem hnk'
            rw [hb]
            simp [step_events, hmem]
          · have hb : ((lc.get_encoding (some k) (get_path_creds_key s).1).1.add_to_used_creds
                (some k)).2 = true :=
              hadd.1.mpr ⟨k, rfl, by rw [hlc1used]; exact hmem⟩
            rw [hb]
            simp [step_events, hmem]
      · congr 1
        rw [hadd.2, hlc1used]
    · show rlTotal ((register_new_creds_loop rest _ _).2.1).runs = _
      rw [ihr.2]
      unfold CredsEncoder.register_samples
      rw [rlTotal_rlAppend]
      simp only [List.length_cons]
      omega

/-- C4: with `num ≤ len(samples)`, `register_new_creds(num, samples)` grows
the CredsEncoder's run-length domain by exactly `num`, and fires the
registry-save plus the non-fatal unmanaged-credential warning exactly for
those processed samples whose credential key is marked used for the first
time; samples whose key is already used (or absent) fire neither. -/
theorem register_new_creds_spec (num : Nat) (samples : List (Option LinkedSample))
    (lc : LinkCreds) (enc : CredsEncoder) (h : num ≤ samples.length) :
    ∃ lc' enc',
      register_new_creds num samples lc enc =
        some (lc', enc', expected_events lc.used_creds_keys (samples.take num)) ∧
      rlTotal enc'.runs = rlTotal enc.runs + num := by
  have hs := register_new_creds_loop_spec (samples.take num) lc enc
  refine ⟨(register_new_creds_loop (samples.take num) lc enc).1,
    (register_new_creds_loop (samples.take num) lc enc).2.1, ?_, ?_⟩
  · unfold register_new_creds
    rw [if_pos h, ← hs.1]
  · rw [hs.2, List.length_take]
    omega

/-- Concrete instantiation of `register_new_creds_spec`: two samples sharing
one fresh key grow the encoder by 2 and fire save+warn only once. -/
theorem register_new_creds_spec_witness :
    ∃ lc' enc',
      register_new_creds 2
          [some ⟨"s3://a", some "k"⟩, some ⟨"s3://b", some "k"⟩]
          ⟨[], [], [], []⟩ ⟨[]⟩ =
        some (lc', enc',
          [[CredEvent.save_link_creds, CredEvent.warn_missing_managed_creds], []]) ∧
      rlTotal enc'.runs = rlTotal (CredsEncoder.mk []).runs + 2 := by
  have := register_new_creds_spec 2
    [some ⟨"s3://a", some "k"⟩, some ⟨"s3://b", some "k"⟩]
    ⟨[], [], [], []⟩ ⟨[]⟩ (by decide)
  simpa using this

/-! ### The commit-scoped `creds_encoder` property (lines 37-69) -/

/-- Errors the Object Cache can raise: the read-only-mode signal of
`hub/util/exceptions.py`, or any other error. -/
inductive CacheErr where
  | readOnlyModeError
  | other (msg : String)
deriving DecidableEq, Repr

/-- The meta cache as the engine observes it: which keys hold a persisted
encoder payload, and the error (if any) its write (`meta_cache[key] = enc`)
and typed-object read (`get_hub_object`) operations raise. -/
structure MetaCache where
  stored : List (String × CredsEncoder)
  write_err : Option CacheErr
  read_err : Option CacheErr
deriving DecidableEq, Repr

/-- Presence / payload lookup of a persisted encoder (`meta_cache[key]`). -/
def MetaCache.lookup (mc : MetaCache) (k : String) : Option CredsEncoder :=
  (mc.stored.find? (fun p => p.1 == k)).map Prod.snd

/-- An in-memory `CredsEncoder` object: `oid` models Python object identity
(two objects created by distinct constructor/load calls have distinct
`oid`s), `data` its run-length payload. -/
structure EncObj where
  oid : Nat
  data : CredsEncoder
deriving DecidableEq, Repr

/-- Modelled from the spec: `get_creds_encoder_key` (`hub/util/keys.py`, not
in this tree) is a pure function of the tensor key, the commit id and the
structure kind. -/
def get_creds_encoder_key (key commit_id : String) : String :=
  key ++ "/" ++ commit_id ++ "/creds_encoder"

/-- The slice of `LinkedChunkEngine` state that the `creds_encoder` property
reads and writes: the engine's tensor `key` and current `commit_id`, the meta
cache, the cached encoder object with its recorded commit id
(`_creds_encoder`, `_creds_encoder_commit_id`), a freshness counter for
object identities, and the trace of `register_hub_object` calls. -/
structure EngineCredsState where
  key : String
  commit_id : String
  meta_cache : MetaCache
  _creds_encoder : Option EncObj
  _creds_encoder_commit_id : Option String
  next_oid : Nat
  registered : List (String × Nat)
deriving DecidableEq, Repr

/-- `LinkedChunkEngine.creds_encoder_exists` (lines 56-69): true when the
cached encoder matches the current commit, else when the meta cache holds the
commit's encoder key. -/
def creds_encoder_exists (s : EngineCredsState) : Bool :=
  if s._creds_encoder.isSome ∧ s._creds_encoder_commit_id = some s.commit_id then
    true
  else
    (s.meta_cache.lookup (get_creds_encoder_key s.key s.commit_id)).isSome

/-- `LinkedChunkEngine.creds_encoder` (lines 37-54).  On first access or when
the recorded commit id differs from the current one, the cached object is
discarded: a fresh empty encoder is created (its cache write swallowing ONLY
`ReadOnlyModeError`, line 47-48) or the persisted one is loaded as a new
in-memory object; either way the fresh object, the current commit id and a
`register_hub_object` call are recorded.  Otherwise the cached object is
returned unchanged.  (The source guards the load with
`if not self.creds_encoder_exists: ... else: ...`; the two branches are kept
with the same polarity here.) -/
def creds_encoder_prop (s : EngineCredsState) : Except CacheErr (EncObj × EngineCredsState) :=
  let commit_id := s.commit_id
  if s._creds_encoder = none ∨ s._creds_encoder_commit_id ≠ some commit_id then
    let key := get_creds_encoder_key s.key commit_id
    if creds_encoder_exists s then
      match s.meta_cache.read_err with
      | some e => Except.error e
      | none =>
        let enc : EncObj := ⟨s.next_oid, (s.meta_cache.lookup key).getD ⟨[]⟩⟩
        Except.ok (enc,
          { s with _creds_encoder := some enc,
                   _creds_encoder_commit_id := some commit_id,
                   next_oid := s.next_oid + 1,
                   registered := s.registered ++ [(key, enc.oid)] })
    else
      let enc : EncObj := ⟨s.next_oid, ⟨[]⟩⟩
      match s.meta_cache.write_err with
      | some CacheErr.readOnlyModeError =>
        Except.ok (enc,
          { s with _creds_encoder := some enc,
                   _creds_encoder_commit_id := some commit_id,
                   next_oid := s.next_oid + 1,
                   registered := s.registered ++ [(key, enc.oid)] })
      | some e => Except.error e
      | none =>
        Except.ok (enc,
          { s with meta_cache := { s.meta_cache with
                     stored := (key, enc.data) :: s.meta_cache.stored },
                   _creds_encoder := some enc,
                   _creds_encoder_commit_id := some commit_id,
                   next_oid := s.next_oid + 1,
                   registered := s.registered ++ [(key, enc.oid)] })
  else
    Except.ok (s._creds_encoder.getD ⟨0, ⟨[]⟩⟩, s)

/-- C7: every successful `creds_encoder` access leaves the cached encoder
recorded at the engine's current commit id; when the previously cached object
was recorded at a different commit id it is discarded and the returned object
is a fresh one (distinct identity), and the cached object is returned itself
only when its recorded commit id equals the current one. -/
theorem creds_encoder_commit_scoped (s : EngineCredsState)
    (wf : ∀ e, s._creds_encoder = some e → e.oid < s.next_oid) :
    ∀ enc s', creds_encoder_prop s = Except.ok (enc, s') →
      s'._creds_encoder_commit_id = some s.commit_id ∧
      s'._creds_encoder = some enc ∧
      (∀ e, s._creds_encoder = some e →
        s._creds_encoder_commit_id ≠ some s.commit_id → enc ≠ e) ∧
      (∀ e, s._creds_encoder = some e →
        s._creds_encoder_commit_id = some s.commit_id → enc = e) := by
  intro enc s' h
  unfold creds_encoder_prop at h
  by_cases hcond : s._creds_encoder = none ∨ s._creds_encoder_commit_id ≠ some s.commit_id
  · rw [if_pos hcond] at h
    by_cases hex : creds_encoder_exists s
    · rw [if_pos hex] at h
      cases hr : s.meta_cache.read_err with
      | some e => rw [hr] at h; exact Except.noConfusion h
      | none =>
        rw [hr] at h
        rw [Except.ok.injEq, Prod.mk.injEq] at h
        obtain ⟨he, hs⟩ := h
        subst he; subst hs
        refine ⟨rfl, rfl, ?_, ?_⟩
        · intro e hsome _ heq
          have := wf e hsome
          rw [← heq] at this
          simp at this
        · intro e hsome hcommit
          rcases hcond with hnone | hne
          · rw [hnone] at hsome; exact Option.noConfusion hsome
          · exact absurd hcommit hne
    · rw [if_neg hex] at h
      cases hw : s.meta_cache.write_err with
      | some e =>
        cases e with
        | readOnlyModeError =>
          rw [hw] at h
          rw [Except.ok.injEq, Prod.mk.injEq] at h
          obtain ⟨he, hs⟩ := h
          subst he; subst hs
          refine ⟨rfl, rfl, ?_, ?_⟩
          · intro e hsome _ heq
            have := wf e hsome
            rw [← heq] at this
            simp at this
          · intro e hsome hcommit
            rcases hcond with hnone | hne
            · rw [hnone] at hsome; exact Option.noConfusion hsome
            · exact absurd hcommit hne
        | other m => rw [hw] at h; exact Except.noConfusion h
      | none =>
        rw [hw] at h
        rw [Except.ok.injEq, Prod.mk.injEq] at h
        obtain ⟨he, hs⟩ := h
        subst he; subst hs
        refine ⟨rfl, rfl, ?_, ?_⟩
        · intro e hsome _ heq
          have := wf e hsome
          rw [← heq] at this
          simp at this
        · intro e hsome hcommit
          rcases hcond with hnone | hne
          · rw [hnone] at hsome; exact Option.noConfusion hsome
          · exact absurd hcommit hne
  · rw [if_neg hcond] at h
    push_neg at hcond
    obtain ⟨hsome, hcommit⟩ := hcond
    rw [Except.ok.injEq, Prod.mk.injEq] at h
    obtain ⟨he, hs⟩ := h
    subst hs
    cases hcached : s._creds_encoder with
    | none => exact absurd hcached hsome
    | some e0 =>
      rw [hcached] at he
      refine ⟨hcommit, ?_, ?_, ?_⟩
      · exact congrArg some he
      · intro e _ hne
        exact absurd hcommit hne
      · intro e hsome' _
        have h1 : e0 = e := by injection hsome'
        rw [← h1, ← he]
        rfl

/-- Concrete instantiation of `creds_encoder_commit_scoped`: an engine whose
cached encoder was recorded under commit `c1` but whose current commit is
`c2` returns a freshly created object, not the cached one. -/
theorem creds_encoder_commit_scoped_witness :
    ((⟨1, ⟨[]⟩⟩ : EncObj) ≠ ⟨0, ⟨[(0, 1)]⟩⟩) := by
  have h := creds_encoder_commit_scoped
    { key := "t", commit_id := "c2", meta_cache := ⟨[], none, none⟩,
      _creds_encoder := some ⟨0, ⟨[(0, 1)]⟩⟩,
      _creds_encoder_commit_id := some "c1",
      next_oid := 1, registered := [] }
    (by intro e he; cases he; decide)
  exact (h ⟨1, ⟨[]⟩⟩ _ rfl).2.2.1 ⟨0, ⟨[(0, 1)]⟩⟩ rfl (by decide)

/-- C8: on the lazy-creation path (cache miss for the current commit and no
persisted encoder), a `ReadOnlyModeError` raised by the cache write is
swallowed and the freshly created empty encoder is still returned, while any
other write error propagates; on the load path every read error propagates. -/
theorem creds_encoder_readonly_swallowed (s : EngineCredsState)
    (hbranch : s._creds_encoder = none ∨ s._creds_encoder_commit_id ≠ some s.commit_id) :
    (creds_encoder_exists s = false →
      (s.meta_cache.write_err = some CacheErr.readOnlyModeError →
        ∃ s', creds_encoder_prop s = Except.ok (⟨s.next_oid, ⟨[]⟩⟩, s')) ∧
      (∀ m, s.meta_cache.write_err = some (CacheErr.other m) →
        creds_encoder_prop s = Except.error (CacheErr.other m))) ∧
    (creds_encoder_exists s = true →
      ∀ e, s.meta_cache.read_err = some e →
        creds_encoder_prop s = Except.error e) := by
  constructor
  · intro hex
    constructor
    · intro hw
      have hres : creds_encoder_prop s = Except.ok (⟨s.next_oid, ⟨[]⟩⟩,
          { s with _creds_encoder := some ⟨s.next_oid, ⟨[]⟩⟩,
                   _creds_encoder_commit_id := some s.commit_id,
                   next_oid := s.next_oid + 1,
                   registered := s.registered ++
                     [(get_creds_encoder_key s.key s.commit_id, s.next_oid)] }) := by
        unfold creds_encoder_prop
        rw [if_pos hbranch, if_neg (by rw [hex]; exact Bool.false_ne_true), hw]
      exact ⟨_, hres⟩
    · intro m hw
      unfold creds_encoder_prop
      rw [if_pos hbranch, if_neg (by rw [hex]; exact Bool.false_ne_true), hw]
  · intro hex e hr
    unfold creds_encoder_prop
    rw [if_pos hbranch, if_pos hex, hr]

/-- Concrete instantiation of `creds_encoder_readonly_swallowed`: with a
read-only cache the fresh empty encoder is still produced; with a cache whose
write raises a different error the access fails with that error. -/
theorem creds_encoder_readonly_swallowed_witness :
    (∃ s', creds_encoder_prop
        { key := "t", commit_id := "c1",
          meta_cache := ⟨[], some CacheErr.readOnlyModeError, none⟩,
          _creds_encoder := none, _creds_encoder_commit_id := none,
          next_oid := 0, registered := [] } =
      Except.ok (⟨0, ⟨[]⟩⟩, s')) ∧
    creds_encoder_prop
        { key := "t", commit_id := "c1",
          meta_cache := ⟨[], some (CacheErr.other "disk full"), none⟩,
          _creds_encoder := none, _creds_encoder_commit_id := none,
          next_oid := 0, registered := [] } =
      Except.error (CacheErr.other "disk full") := by
  constructor
  · exact ((creds_encoder_readonly_swallowed
      { key := "t", commit_id := "c1",
        meta_cache := ⟨[], some CacheErr.readOnlyModeError, none⟩,
        _creds_encoder := none, _creds_encoder_commit_id := none,
        next_oid := 0, registered := [] }
      (Or.inl rfl)).1 rfl).1 rfl
  · exact ((creds_encoder_readonly_swallowed
      { key := "t", commit_id := "c1",
        meta_cache := ⟨[], some (CacheErr.other "disk full"), none⟩,
        _creds_encoder := none, _creds_encoder_commit_id := none,
        next_oid := 0, registered := [] }
      (Or.inl rfl)).1 rfl).2 "disk full" rfl

end HubLinked
